import Mathlib

/-!
Verification of the dashboard layout engine.

The repository bundles several engine variants:
* a domino-push engine (downward free-cell search, rightward/leftward width
  cascades, recursive height push) — embedded below in namespace `Push`;
* a gravity / auto-pack "stabilize" engine — embedded in namespace `Gravity`;
* a spiral free-cell-search variant — embedded in namespace `Spiral`;
plus an independent validator (`validateLayout`).

Coordinates and sizes are JS numbers used as integers, embedded as `Int`.
JS `while` loops are embedded as fuel-bounded iteration; the fuel supplied by
each top-level operation is large enough that the loop reaches its fixed point
(the loop body is re-run only while the previous pass reported a change, and a
pass that reports no change returns its state unchanged, exactly as the source
loop does).
-/

/-- Grid item record: `{componentId, componentType, x, y, width, height}`. -/
structure GridItem where
  componentId : String
  componentType : String
  x : Int
  y : Int
  width : Int
  height : Int
deriving Repr, DecidableEq

/-- `GRID_COLUMNS = 12` (constants.ts). -/
def GRID_COLUMNS : Int := 12

/-- `MAX_COMPONENT_HEIGHT = 8` (constants.ts). -/
def MAX_COMPONENT_HEIGHT : Int := 8

/-- JS `Math.max` on integers, kept as an explicit conditional so that the
kernel can evaluate it. -/
def imax (a b : Int) : Int := if a ≤ b then b else a

/-- JS `Math.min` on integers. -/
def imin (a b : Int) : Int := if a ≤ b then a else b

/-- Rectangle intersection test `overlaps(a, b)`; identical in every engine
file and inlined in the validator. -/
def overlapsB (a b : GridItem) : Bool :=
  a.x < b.x + b.width && b.x < a.x + a.width &&
    a.y < b.y + b.height && b.y < a.y + a.height

/-- y-axis-only overlap `vOverlaps(a, b)` used by the horizontal cascades. -/
def vOverlapsB (a b : GridItem) : Bool :=
  a.y < b.y + b.height && b.y < a.y + a.height

/-- x-axis-only overlap `hOverlaps(a, b)` used by the vertical push. -/
def hOverlapsB (a b : GridItem) : Bool :=
  a.x < b.x + b.width && b.x < a.x + a.width

/-- `canFit(items, x, y, w, h, excludeId)`: in-bounds and collision-free test;
identical in the push and spiral engine files.  The JS `excludeId` parameter is
optional (`undefined` when absent), embedded as `Option String`; the JS
comparison `i.componentId !== excludeId` is true when `excludeId` is absent. -/
def canFit (items : List GridItem) (x y w h : Int) (excludeId : Option String) : Bool :=
  if x < 0 ∨ y < 0 ∨ x + w > GRID_COLUMNS ∨ h > MAX_COMPONENT_HEIGHT then false
  else
    !(items.any (fun i =>
      (some i.componentId != excludeId) &&
        overlapsB { componentId := "", componentType := "", x := x, y := y, width := w, height := h } i))

/-- `getMaxRow(items)`: `0` for an empty list, else `Math.max` of `y + height`. -/
def getMaxRow (items : List GridItem) : Int :=
  match items.map (fun i => i.y + i.height) with
  | [] => 0
  | v :: vs => vs.foldl imax v

/-- Insert `a` into the sorted list `l` after every element `b` with
`le b a` (so after all of `a`'s ties — the stable position). -/
def insSorted {α : Type} (le : α → α → Bool) (a : α) : List α → List α
  | [] => [a]
  | b :: bs => if le b a then b :: insSorted le a bs else a :: b :: bs

/-- Stable sort by insertion, processing elements left to right; for a total
comparator this yields exactly the result of JS's (stable) `Array.sort` with
comparator `cmp a b ≤ 0 ↔ le a b`.  (A structurally recursive sort is used so
that the kernel can evaluate it.) -/
def stableSort {α : Type} (le : α → α → Bool) (l : List α) : List α :=
  l.foldl (fun acc x => insSorted le x acc) []

/-- Stable ascending sort by `x`, the JS `result.sort((a, b) => a.x - b.x)`. -/
def sortXAsc (l : List GridItem) : List GridItem :=
  stableSort (fun a b => a.x ≤ b.x) l

/-- Stable descending sort by `x`, the JS `result.sort((a, b) => b.x - a.x)`. -/
def sortXDesc (l : List GridItem) : List GridItem :=
  stableSort (fun a b => b.x ≤ a.x) l

namespace Push

/-- Body of the downward scan of `findNearestFreeCell`: try `y`, `y+1`, … for
the given number of steps. -/
def findGo (items : List GridItem) (cx w h : Int) (ex : Option String) :
    Nat → Int → Option (Int × Int)
  | 0, _ => none
  | n + 1, y => if canFit items cx y w h ex then some (cx, y) else findGo items cx w h ex n (y + 1)

/-- Downward-scan `findNearestFreeCell` (push engine): `for (let y = cy; y <= maxY; y++)`
with `maxY = getMaxRow(items) + h + 10`; the column `cx` is never altered. -/
def findNearestFreeCell (items : List GridItem) (cx cy w h : Int) (ex : Option String) :
    Option (Int × Int) :=
  let maxY := getMaxRow items + h + 10
  findGo items cx w h ex (maxY - cy + 1).toNat cy

/-- `addComponent`: free-cell search from the new item's own position, no
exclusion; `null` (here `none`) on failure, else append at the found cell. -/
def addComponent (items : List GridItem) (newItem : GridItem) : Option (List GridItem) :=
  match findNearestFreeCell items newItem.x newItem.y newItem.width newItem.height none with
  | none => none
  | some pos => some (items ++ [{ newItem with x := pos.1, y := pos.2 }])

/-- `removeComponent`: filter out the item with the given id. -/
def removeComponent (items : List GridItem) (componentId : String) : List GridItem :=
  items.filter (fun i => i.componentId != componentId)

/-- `repositionComponent`: `null` when the id is absent or no cell is found,
else the remaining items with the moved item re-appended at the found cell. -/
def repositionComponent (items : List GridItem) (componentId : String) (newX newY : Int) :
    Option (List GridItem) :=
  match items.find? (fun i => i.componentId == componentId) with
  | none => none
  | some comp =>
    let others := items.filter (fun i => i.componentId != componentId)
    match findNearestFreeCell others newX newY comp.width comp.height none with
    | none => none
    | some pos => some (others ++ [{ comp with x := pos.1, y := pos.2 }])

/-- Inner loop of a leftward-cascade pass (`for (const other of result)`),
with `item` the current outer element; `j` is the scan index, the `Nat`
countdown equals `length - j` at every call. -/
def innerLeft (item : GridItem) : Nat → Nat → List GridItem → Bool → List GridItem × Bool
  | 0, _, st, ch => (st, ch)
  | n + 1, j, st, ch =>
    match st.get? j with
    | none => (st, ch)
    | some other =>
      if other.componentId == item.componentId then innerLeft item n (j + 1) st ch
      else if vOverlapsB item other && item.x < other.x + other.width &&
          other.x < item.x + item.width then
        let newOtherX := imin other.x (item.x - other.width)
        if newOtherX ≠ other.x then
          innerLeft item n (j + 1) (st.set j { other with x := newOtherX }) true
        else innerLeft item n (j + 1) st ch
      else innerLeft item n (j + 1) st ch

/-- Outer loop of a leftward-cascade pass (`for (const item of result.sort(...))`);
positions in `st` are frozen for the pass, values are mutated in place. -/
def outerLeft (resized : GridItem) : Nat → Nat → List GridItem → Bool → List GridItem × Bool
  | 0, _, st, ch => (st, ch)
  | n + 1, k, st, ch =>
    match st.get? k with
    | none => (st, ch)
    | some item0 =>
      let push1 : List GridItem × Bool :=
        if vOverlapsB resized item0 && resized.x < item0.x + item0.width &&
            item0.x < resized.x + resized.width then
          let newItemX := resized.x - item0.width
          if newItemX ≠ item0.x then (st.set k { item0 with x := newItemX }, true) else (st, ch)
        else (st, ch)
      let item1 := (push1.1.get? k).getD item0
      let inner := innerLeft item1 push1.1.length 0 push1.1 push1.2
      outerLeft resized n (k + 1) inner.1 inner.2

/-- `while (changed)` loop of `resizeLeftEdge`: each pass re-sorts by
descending `x` (the in-place JS sort) and runs the outer loop; the pass fuel
is generous enough for the fixed point on all inputs used concretely. -/
def cascadeLeft (resized : GridItem) : Nat → List GridItem → List GridItem
  | 0, st => st
  | f + 1, st =>
    let sorted := sortXDesc st
    let pass := outerLeft resized sorted.length 0 sorted false
    if pass.2 then cascadeLeft resized f pass.1 else pass.1

/-- Fuel bound for the cascade loops: every productive pass moves some item's
`x` by at least one column, and each item's `x` stays within the span reachable
by stacking all items flush against the resized one. -/
def cascadeFuel (resized : GridItem) (others : List GridItem) : Nat :=
  (others.length + 1) *
      (resized.x.natAbs + resized.width.natAbs +
        others.foldl (fun s i => s + i.x.natAbs + i.width.natAbs) 0 + GRID_COLUMNS.natAbs + 1) + 1

/-- `resizeLeftEdge(items, componentId, newX)` (push engine). -/
def resizeLeftEdge (items : List GridItem) (componentId : String) (newX : Int) : List GridItem :=
  match items.find? (fun i => i.componentId == componentId) with
  | none => items
  | some comp =>
    let clampedX := imax 0 (imin newX (comp.x + comp.width - 1))
    let newWidth := comp.x + comp.width - clampedX
    let others := items.filter (fun i => i.componentId != componentId)
    if canFit others clampedX comp.y newWidth comp.height none then
      others ++ [{ comp with x := clampedX, width := newWidth }]
    else
      let resized := { comp with x := clampedX, width := newWidth }
      let result := cascadeLeft resized (cascadeFuel resized others) others
      if result.any (fun i => i.x < 0) then items
      else result ++ [resized]

/-- Inner loop of a rightward-cascade pass. -/
def innerRight (item : GridItem) : Nat → Nat → List GridItem → Bool → List GridItem × Bool
  | 0, _, st, ch => (st, ch)
  | n + 1, j, st, ch =>
    match st.get? j with
    | none => (st, ch)
    | some other =>
      if other.componentId == item.componentId then innerRight item n (j + 1) st ch
      else if vOverlapsB item other && item.x + item.width > other.x &&
          other.x + other.width > item.x && other.x < item.x + item.width then
        let newX := imax other.x (item.x + item.width)
        if newX ≠ other.x then
          innerRight item n (j + 1) (st.set j { other with x := newX }) true
        else innerRight item n (j + 1) st ch
      else innerRight item n (j + 1) st ch

/-- Outer loop of a rightward-cascade pass. -/
def outerRight (resized : GridItem) : Nat → Nat → List GridItem → Bool → List GridItem × Bool
  | 0, _, st, ch => (st, ch)
  | n + 1, k, st, ch =>
    match st.get? k with
    | none => (st, ch)
    | some item0 =>
      let push1 : List GridItem × Bool :=
        if vOverlapsB resized item0 && resized.x + resized.width > item0.x &&
            item0.x + item0.width > resized.x then
          let newX := resized.x + resized.width
          if newX ≠ item0.x then (st.set k { item0 with x := newX }, true) else (st, ch)
        else (st, ch)
      let item1 := (push1.1.get? k).getD item0
      let inner := innerRight item1 push1.1.length 0 push1.1 push1.2
      outerRight resized n (k + 1) inner.1 inner.2

/-- `while (changed)` loop of `resizeWidth`, each pass sorted by ascending `x`. -/
def cascadeRight (resized : GridItem) : Nat → List GridItem → List GridItem
  | 0, st => st
  | f + 1, st =>
    let sorted := sortXAsc st
    let pass := outerRight resized sorted.length 0 sorted false
    if pass.2 then cascadeRight resized f pass.1 else pass.1

/-- `resizeWidth(items, componentId, newWidth)` (push engine).  Note the final
bounds check scans only `result` (the pushed neighbours); the resized item is
appended without its own right edge being checked. -/
def resizeWidth (items : List GridItem) (componentId : String) (newWidth : Int) : List GridItem :=
  match items.find? (fun i => i.componentId == componentId) with
  | none => items
  | some comp =>
    let clamped := imax 1 (imin newWidth GRID_COLUMNS)
    let others := items.filter (fun i => i.componentId != componentId)
    if canFit others comp.x comp.y clamped comp.height none then
      others ++ [{ comp with width := clamped }]
    else
      let resized := { comp with width := clamped }
      let result := cascadeRight resized (cascadeFuel resized others) others
      if result.any (fun i => i.x + i.width > GRID_COLUMNS) then items
      else result ++ [resized]

/-- The three movement cases of `resizeHeight`'s recursive `pushDown`, in
source order: top inside the newly claimed band `[oldBottom, newBottom)` →
move to `newBottom`; top at or below `oldBottom` → shift down by `delta`;
straddling the boundary → move to `newBottom`; otherwise untouched. -/
def pushVerdict (oldB newB : Int) (item : GridItem) : Option GridItem :=
  let delta := newB - oldB
  if item.y ≥ oldB ∧ item.y < newB then some { item with y := newB }
  else if item.y ≥ oldB then some { item with y := item.y + delta }
  else if item.y < newB ∧ item.y + item.height > oldB then some { item with y := newB }
  else none

/-- The recursive `pushDown` of `resizeHeight`, embedded as a loop over the
array index `k < n` (the `for (const item of result)` loop) with state
`(result, pushed)`.  A moved item is written back in place, its id enters
`pushed`, and the push recurses from the moved item's own column span and
previous/new bottom.  The leading `Nat` is a step budget consumed by every
recursive call (loop steps and nested pushes alike); the `pushed` set lets
each item be moved at most once, so the budget supplied by `resizeHeight`
covers the whole computation and the zero-budget branch is never taken. -/
def pushLoop (srcX srcW oldB newB : Int) :
    Nat → Nat → Nat → List GridItem × List String → List GridItem × List String
  | 0, _, _, st => st
  | gas + 1, n, k, st =>
    if k < n then
      match st.1.get? k with
      | none => st
      | some item =>
        if st.2.contains item.componentId then pushLoop srcX srcW oldB newB gas n (k + 1) st
        else if srcX < item.x + item.width ∧ item.x < srcX + srcW then
          match pushVerdict oldB newB item with
          | none => pushLoop srcX srcW oldB newB gas n (k + 1) st
          | some item2 =>
            let prevBottom := item.y + item.height
            let st1 := (st.1.set k item2, item.componentId :: st.2)
            let st2 :=
              if item2.y + item2.height - prevBottom ≤ 0 then st1
              else pushLoop item2.x item2.width prevBottom (item2.y + item2.height) gas
                st1.1.length 0 st1
            pushLoop srcX srcW oldB newB gas n (k + 1) st2
        else pushLoop srcX srcW oldB newB gas n (k + 1) st
    else st

/-- Entry point of the recursive push: `if (delta <= 0) return;` then the loop. -/
def pushDownH (gas : Nat) (srcX srcW oldB newB : Int) (st : List GridItem × List String) :
    List GridItem × List String :=
  if newB - oldB ≤ 0 then st else pushLoop srcX srcW oldB newB gas st.1.length 0 st

/-- `resizeHeight(items, componentId, newHeight)` (push engine): clamp to
`[1, MAX_COMPONENT_HEIGHT]`, direct apply when free or when shrinking, else the
recursive downward push; there is no rejection branch. -/
def resizeHeight (items : List GridItem) (componentId : String) (newHeight : Int) :
    List GridItem :=
  match items.find? (fun i => i.componentId == componentId) with
  | none => items
  | some comp =>
    let clamped := imax 1 (imin newHeight MAX_COMPONENT_HEIGHT)
    let others := items.filter (fun i => i.componentId != componentId)
    if canFit others comp.x comp.y comp.width clamped none then
      others ++ [{ comp with height := clamped }]
    else if clamped ≤ comp.height then
      others ++ [{ comp with height := clamped }]
    else
      let st := pushDownH ((others.length + 1) * (others.length + 2) + 1) comp.x comp.width
        (comp.y + comp.height) (comp.y + clamped) (others, [])
      st.1 ++ [{ comp with height := clamped }]

end Push

/-- `[start, start+1, …]` of the given length; used to embed JS
`for (let r = start; r < start + len; r++)` row iterations. -/
def intRangeLen (start : Int) (len : Nat) : List Int :=
  (List.range len).map (fun i => start + (i : Int))

namespace Spiral

/-- The alternate `findNearestFreeCell` variant: spiral outward from
`(cx, cy)`, scanning each perimeter of the square of radius `d` in the order
`dx = -d..d`, `dy = -d..d`, skipping interior cells; the first fitting cell is
returned, so both `x` and `y` can differ from the target. -/
def findNearestFreeCell (items : List GridItem) (cx cy w h : Int) (ex : Option String) :
    Option (Int × Int) :=
  let maxSearch := imax GRID_COLUMNS (getMaxRow items + h + 10)
  (intRangeLen 0 (maxSearch + 1).toNat).findSome? fun d =>
    (intRangeLen (-d) (2 * d + 1).toNat).findSome? fun dx =>
      (intRangeLen (-d) (2 * d + 1).toNat).findSome? fun dy =>
        if dx.natAbs ≠ d.natAbs ∧ dy.natAbs ≠ d.natAbs then none
        else if canFit items (cx + dx) (cy + dy) w h ex then some (cx + dx, cy + dy)
        else none

/-- `addComponent` of the spiral-search engine file. -/
def addComponent (items : List GridItem) (newItem : GridItem) : Option (List GridItem) :=
  match findNearestFreeCell items newItem.x newItem.y newItem.width newItem.height none with
  | none => none
  | some pos => some (items ++ [{ newItem with x := pos.1, y := pos.2 }])

end Spiral

namespace Gravity

/-- Keep the first occurrence of each value (the JS `Set` insertion order). -/
def dedupFirstGo (seen : List Int) : List Int → List Int
  | [] => []
  | a :: rest =>
    if seen.contains a then dedupFirstGo seen rest
    else a :: dedupFirstGo (a :: seen) rest

/-- `getOccupiedYs`: every row index covered by some item, distinct, ascending. -/
def getOccupiedYs (items : List GridItem) : List Int :=
  stableSort (fun a b => a ≤ b)
    (dedupFirstGo [] (items.flatMap (fun i => intRangeLen i.y i.height.toNat)))

/-- `componentsAtY`: items whose row span covers `y`. -/
def componentsAtY (items : List GridItem) (y : Int) : List GridItem :=
  items.filter (fun i => i.y ≤ y && y < i.y + i.height)

/-- Recursion of `uniqueById` carrying the `seen` id set. -/
def uniqueByIdGo : List String → List GridItem → List GridItem
  | _, [] => []
  | seen, c :: rest =>
    if seen.contains c.componentId then uniqueByIdGo seen rest
    else c :: uniqueByIdGo (c.componentId :: seen) rest

/-- `uniqueById`: keep the first occurrence of each id. -/
def uniqueById (comps : List GridItem) : List GridItem := uniqueByIdGo [] comps

/-- `rowSort`: stable sort by `x` with the resized id winning ties. -/
def rowSort (comps : List GridItem) (resizedId : Option String) : List GridItem :=
  stableSort (fun a b =>
    decide (a.x < b.x) ||
      (a.x == b.x && (some a.componentId == resizedId || some b.componentId != resizedId)))
    comps

/-- `result.find(r => r.componentId === c.componentId)!`; the default is never
used because the id always comes from `result` itself. -/
def findById (l : List GridItem) (cid : String) (dflt : GridItem) : GridItem :=
  (l.find? (fun i => i.componentId == cid)).getD dflt

/-- Mutate (the first item with) the given id in place. -/
def updateFirstById : List GridItem → String → (GridItem → GridItem) → List GridItem
  | [], _, _ => []
  | i :: rest, cid, f =>
    if i.componentId == cid then f i :: rest else i :: updateFirstById rest cid f

/-- JS `Math.round(num / den)` for integer `num` and positive integer `den`
(round half toward positive infinity). -/
def roundHalfUp (num den : Int) : Int := (2 * num + den).fdiv (2 * den)

/-- Step 1 of `solveLayout` for one occupied row: proportional shrinking when
the row's total width exceeds `GRID_COLUMNS`, then the rounding mop-up pass. -/
def shrinkRow (resizedId : Option String) (result : List GridItem) (y : Int) : List GridItem :=
  let atY := uniqueById (componentsAtY result y)
  let sorted := rowSort atY resizedId
  let totalWidth := sorted.foldl (fun s c => s + c.width) 0
  if totalWidth ≤ GRID_COLUMNS then result
  else
    let excess := totalWidth - GRID_COLUMNS
    let totalShrinkable :=
      sorted.foldl (fun s c => s + ((findById result c.componentId c).width - 1)) 0
    if totalShrinkable > 0 then
      let prop := sorted.foldl (fun (acc : List GridItem × Int) c =>
        let ref := findById acc.1 c.componentId c
        let shrinkable := ref.width - 1
        let share := imin shrinkable (roundHalfUp (excess * shrinkable) totalShrinkable)
        let dec := imin share acc.2
        (updateFirstById acc.1 c.componentId (fun r => { r with width := r.width - dec }),
          acc.2 - dec)) (result, excess)
      if prop.2 > 0 then
        let order := sorted.filter (fun c => some c.componentId != resizedId) ++
          sorted.filter (fun c => some c.componentId == resizedId)
        (order.foldl (fun (acc : List GridItem × Int) c =>
          if acc.2 ≤ 0 then acc
          else
            let ref := findById acc.1 c.componentId c
            let shrink := imin (ref.width - 1) acc.2
            (updateFirstById acc.1 c.componentId (fun r => { r with width := r.width - shrink }),
              acc.2 - shrink)) (prop.1, prop.2)).1
      else prop.1
    else result

/-- One reserved span in the `occupied` row map: `lo`/`hi` are the JS `start`/
`end` fields. -/
structure OccRange where
  lo : Int
  hi : Int
  id : String
deriving Repr, DecidableEq

/-- `occupied.get(r) || []`. -/
def getRow (occ : List (Int × List OccRange)) (r : Int) : List OccRange :=
  ((occ.find? (fun p => p.1 == r)).map (fun p => p.2)).getD []

/-- `occupied.set(r, v)` (update-or-insert on the JS `Map`). -/
def setRow : List (Int × List OccRange) → Int → List OccRange → List (Int × List OccRange)
  | [], r, v => [(r, v)]
  | p :: rest, r, v => if p.1 == r then (r, v) :: rest else p :: setRow rest r v

/-- The per-row `occupied` lists are kept sorted by `start` after each push. -/
def sortOcc (l : List OccRange) : List OccRange := stableSort (fun a b => a.lo ≤ b.lo) l

/-- The inner rows scan of the `tryX` loop: the first occupied span any row
hits yields the skip-ahead value `max tryX (occ.end - 1)`. -/
def rowsCheck (occ : List (Int × List OccRange)) (tryX w : Int) : List Int → Option Int
  | [] => none
  | r :: rest =>
    match (getRow occ r).find? (fun o => tryX < o.hi && tryX + w > o.lo) with
    | some o => some (imax tryX (o.hi - 1))
    | none => rowsCheck occ tryX w rest

/-- The `for (let tryX = 0; tryX <= GRID_COLUMNS - ref.width; tryX++)` loop;
`tryX` strictly grows each iteration so the supplied fuel covers the range. -/
def bestXGo (occ : List (Int × List OccRange)) (refY refH refW : Int) :
    Nat → Int → Int
  | 0, _ => -1
  | f + 1, tryX =>
    if tryX > GRID_COLUMNS - refW then -1
    else
      match rowsCheck occ tryX refW (intRangeLen refY refH.toNat) with
      | none => tryX
      | some t => bestXGo occ refY refH refW f (t + 1)

/-- Leftmost `x` where the item fits across all its rows, `-1` when none. -/
def findBestX (occ : List (Int × List OccRange)) (ref : GridItem) : Int :=
  bestXGo occ ref.y ref.height ref.width (GRID_COLUMNS - ref.width + 2).toNat 0

/-- Multi-row components sort before single-row ones on full ties. -/
def mNum (i : GridItem) : Int := if i.height > 1 then 0 else 1

/-- Step 2 priority order: by `y`, then `x`, resized id first, then
multi-row-before-single-row. -/
def byPriority (result : List GridItem) (rid : Option String) : List GridItem :=
  stableSort (fun a b =>
    decide (a.y < b.y) ||
      (a.y == b.y && (decide (a.x < b.x) ||
        (a.x == b.x && (some a.componentId == rid ||
          (some b.componentId != rid && decide (mNum a ≤ mNum b))))))) result

/-- Step 2 body for one component: find the leftmost fitting `x`, write it
back, and reserve the span on each of the item's rows. -/
def place1 (acc : List GridItem × List (Int × List OccRange) × List String)
    (comp : GridItem) : List GridItem × List (Int × List OccRange) × List String :=
  let res := acc.1
  let occ := acc.2.1
  let placed := acc.2.2
  if placed.contains comp.componentId then acc
  else
    let ref := findById res comp.componentId comp
    let bX0 := findBestX occ ref
    let bX := if bX0 < 0 then 0 else bX0
    let res' := updateFirstById res comp.componentId (fun r => { r with x := bX })
    let occ' := (intRangeLen ref.y ref.height.toNat).foldl (fun o r =>
      setRow o r (sortOcc (getRow o r ++ [⟨bX, bX + ref.width, ref.componentId⟩]))) occ
    (res', occ', comp.componentId :: placed)

/-- Step 3 of `solveLayout` for one occupied row: pack the row's single-row
(movable) components into the gaps left between multi-row (fixed) ones. -/
def buildGaps : Int → List (Int × Int) → List (Int × Int)
  | cursor, [] => if cursor < GRID_COLUMNS then [(cursor, GRID_COLUMNS)] else []
  | cursor, fr :: rest =>
    if fr.1 > cursor then (cursor, fr.1) :: buildGaps (imax cursor fr.2) rest
    else buildGaps (imax cursor fr.2) rest

/-- Consume one gap: place movable components at their natural width while
they fit, returning the updated layout and the remaining movable list. -/
def placeRun : List GridItem → List GridItem → Int → Int → List GridItem × List GridItem
  | res, [], _, _ => (res, [])
  | res, m :: ms, x, hi =>
    if x + m.width ≤ hi then
      placeRun (updateFirstById res m.componentId (fun r => { r with x := x })) ms
        (x + m.width) hi
    else (res, m :: ms)

/-- Fill each gap in turn with the remaining movable components. -/
def placeGaps : List GridItem → List GridItem → List (Int × Int) → List GridItem
  | res, _, [] => res
  | res, movable, g :: rest =>
    let pr := placeRun res movable g.1 g.2
    placeGaps pr.1 pr.2 rest

/-- Step 3 for one row of `solveLayout`. -/
def step3Row (res : List GridItem) (y : Int) : List GridItem :=
  let atY := stableSort (fun a b => decide (a.x ≤ b.x)) (uniqueById (componentsAtY res y))
  let refs := atY.map (fun c => findById res c.componentId c)
  let fixed := refs.filter (fun r => decide (r.height > 1) || r.y != y)
  let movable := refs.filter (fun r => !(decide (r.height > 1) || r.y != y))
  if movable.length > 0 ∧ fixed.length > 0 then
    let fixedRanges :=
      stableSort (fun a b => decide (a.1 ≤ b.1)) (fixed.map (fun f => (f.x, f.x + f.width)))
    placeGaps res movable (buildGaps 0 fixedRanges)
  else res

/-- `solveLayout(items, resizedId)`: shrink over-wide rows, re-pack every
component left-to-right in priority order, then slot single-row components
into gaps around multi-row ones. -/
def solveLayout (items : List GridItem) (rid : Option String) : List GridItem :=
  let afterShrink := (getOccupiedYs items).foldl (shrinkRow rid) items
  let afterPack := ((byPriority afterShrink rid).foldl place1 (afterShrink, [], [])).1
  (getOccupiedYs afterPack).foldl step3Row afterPack

/-- Inner `j` loop of the `pushDown` overlap sweep (gravity engine, FR-020). -/
def pdJ (i : Nat) : Nat → Nat → List GridItem → Bool → List GridItem × Bool
  | _, 0, st, ch => (st, ch)
  | j, f + 1, st, ch =>
    match st.get? i, st.get? j with
    | some a, some b =>
      if overlapsB a b then
        let st' :=
          if a.y ≤ b.y then st.set j { b with y := a.y + a.height }
          else st.set i { a with y := b.y + b.height }
        pdJ i (j + 1) f st' true
      else pdJ i (j + 1) f st ch
    | _, _ => (st, ch)

/-- Outer `i` loop of the overlap sweep. -/
def pdI : Nat → Nat → List GridItem → Bool → List GridItem × Bool
  | _, 0, st, ch => (st, ch)
  | i, f + 1, st, ch =>
    let inner := pdJ i (i + 1) (st.length - (i + 1)) st ch
    pdI (i + 1) f inner.1 inner.2

/-- Fuel for the overlap sweep: each change moves the lower item strictly
downward within a bounded span. -/
def pdFuel (items : List GridItem) : Nat :=
  (items.length + 1) * (items.foldl (fun s i => s + i.y.natAbs + i.height.natAbs) 1) + 1

/-- `while (changed)` wrapper of the overlap sweep. -/
def pdWhile : Nat → List GridItem → List GridItem
  | 0, st => st
  | f + 1, st =>
    let pass := pdI 0 st.length st false
    if pass.2 then pdWhile f pass.1 else pass.1

/-- `pushDown(items)` of the gravity engine: push the lower of every
overlapping pair below the upper until no pair overlaps. -/
def pushDownAll (items : List GridItem) : List GridItem := pdWhile (pdFuel items) items

/-- The `tryY` loop of `gravityCompact` for the component at index `k`:
scan upward candidates `0 ≤ tryY < comp.y`, skipping past blockers. -/
def gcTry (st : List GridItem) (k : Nat) : Nat → Int → List GridItem × Bool
  | 0, _ => (st, false)
  | f + 1, tryY =>
    match st.get? k with
    | none => (st, false)
    | some comp =>
      if tryY < comp.y then
        let test := { comp with y := tryY }
        if st.any (fun o => o.componentId != comp.componentId && overlapsB test o) then
          match st.find? (fun o => o.componentId != comp.componentId && overlapsB test o) with
          | some blocker => gcTry st k f (blocker.y + blocker.height)
          | none => gcTry st k f (tryY + 1)
        else (st.set k test, true)
      else (st, false)

/-- Per-pass loop of `gravityCompact` over all components. -/
def gcComps : Nat → Nat → List GridItem → Bool → List GridItem × Bool
  | 0, _, st, ch => (st, ch)
  | f + 1, k, st, ch =>
    match st.get? k with
    | none => (st, ch)
    | some comp =>
      let r := gcTry st k (comp.y.toNat + 1) 0
      gcComps f (k + 1) r.1 (ch || r.2)

/-- Fuel for `gravityCompact`: every productive pass strictly decreases the
total (nonnegative) `y` mass. -/
def gcFuel (items : List GridItem) : Nat := items.foldl (fun s i => s + i.y.toNat) 0 + 1

/-- `while (changed)` wrapper of `gravityCompact`; each pass first re-sorts
the working array by ascending `y` (the in-place JS sort). -/
def gcWhile : Nat → List GridItem → List GridItem
  | 0, st => st
  | f + 1, st =>
    let sorted := stableSort (fun a b => decide (a.y ≤ b.y)) st
    let pass := gcComps sorted.length 0 sorted false
    if pass.2 then gcWhile f pass.1 else pass.1

/-- `gravityCompact(items)` (FR-021/FR-022): float every component up to the
lowest free row at its column span. -/
def gravityCompact (items : List GridItem) : List GridItem := gcWhile (gcFuel items) items

/-- The `stable` convergence test of `stabilize`. -/
def stableCheck (cur next : List GridItem) : Bool :=
  cur.length == next.length && cur.all (fun old =>
    match next.find? (fun u => u.componentId == old.componentId) with
    | none => false
    | some n => n.x == old.x && n.y == old.y && n.width == old.width && n.height == old.height)

/-- The 20-iteration loop of `stabilize` (FR-024). -/
def stabilizeGo : Nat → List GridItem → Option String → List GridItem
  | 0, cur, _ => cur
  | f + 1, cur, rid =>
    let solved := solveLayout cur rid
    let pushed := pushDownAll solved
    let compacted := gravityCompact pushed
    let next := solveLayout compacted rid
    if stableCheck cur next then next else stabilizeGo f next rid

/-- `stabilize(items, resizedId)`: solve, push down, compact, re-solve, up to
20 rounds or until a fixed point. -/
def stabilize (items : List GridItem) (rid : Option String) : List GridItem :=
  stabilizeGo 20 items rid

/-- `removeComponent` of the gravity engine: filter, then stabilize (which
gravity-compacts the remaining items). -/
def removeComponent (items : List GridItem) (componentId : String) : List GridItem :=
  stabilize (items.filter (fun i => i.componentId != componentId)) none

end Gravity

/-- Violation kinds of the validator. -/
inductive ViolationKind where
  | overlap
  | out_of_bounds
  | invalid_dimensions
deriving Repr, DecidableEq

/-- One `{type, message, components}` record of `validateLayout`. -/
structure Violation where
  type : ViolationKind
  message : String
  components : List String
deriving Repr, DecidableEq

/-- The pairwise overlap sweep of `validateLayout` (every `i < j` pair in
input order). -/
def overlapViolations : List GridItem → List Violation
  | [] => []
  | a :: rest =>
    rest.filterMap (fun b =>
      if overlapsB a b then
        some { type := ViolationKind.overlap,
               message := "Overlap: " ++ a.componentId ++ " and " ++ b.componentId,
               components := [a.componentId, b.componentId] }
      else none) ++ overlapViolations rest

/-- The per-item bound checks of `validateLayout`. -/
def itemViolations (items : List GridItem) : List Violation :=
  items.flatMap (fun item =>
    (if item.x + item.width > GRID_COLUMNS then
      [{ type := ViolationKind.out_of_bounds,
         message := "Out of bounds: " ++ item.componentId,
         components := [item.componentId] }]
    else []) ++
    (if item.x < 0 ∨ item.y < 0 ∨ item.width < 1 ∨ item.height < 1 ∨
        item.height > MAX_COMPONENT_HEIGHT then
      [{ type := ViolationKind.invalid_dimensions,
         message := "Invalid dimensions: " ++ item.componentId,
         components := [item.componentId] }]
    else []))

/-- `validateLayout(items)` (validateLayout.ts): overlap records for every
intersecting pair, then out-of-bounds and invalid-dimension records per item. -/
def validateLayout (items : List GridItem) : List Violation :=
  overlapViolations items ++ itemViolations items

/-! ### Concrete layouts used by the concrete theorems and witnesses -/

/-- A single item at `(6, 0)` of size `6×1` (valid: right edge exactly 12). -/
def exOut : List GridItem := [⟨"a", "Chart", 6, 0, 6, 1⟩]

/-- The width-cascade scenario: `A(0,0,2,1)`, `B(2,0,2,3)`, `C(4,1,2,1)`. -/
def exCascade : List GridItem :=
  [⟨"a", "Chart", 0, 0, 2, 1⟩, ⟨"b", "Chart", 2, 0, 2, 3⟩, ⟨"c", "Chart", 4, 1, 2, 1⟩]

/-- The documented rejection scenario: `a(0,0,6,2)`, `b(6,0,6,1)`. -/
def exReject : List GridItem := [⟨"a", "Chart", 0, 0, 6, 2⟩, ⟨"b", "Chart", 6, 0, 6, 1⟩]

/-- Two vertically separated items with a one-row gap between them. -/
def exTwoRows : List GridItem := [⟨"a", "KPI", 0, 0, 2, 1⟩, ⟨"b", "KPI", 0, 2, 2, 1⟩]

/-- A single occupied cell at `(1, 0)`, blocking a spiral search's target. -/
def exSpiral : List GridItem := [⟨"z", "KPI", 1, 0, 1, 1⟩]

/-- A fresh item targeted at the occupied cell `(1, 0)`. -/
def niEx : GridItem := ⟨"n", "KPI", 1, 0, 1, 1⟩

/-- Left-edge rejection example: growing `b`'s left edge to column 1 pushes
`a` to `x = -1`. -/
def exLeftPair : List GridItem := [⟨"a", "Chart", 0, 0, 2, 1⟩, ⟨"b", "Chart", 2, 0, 2, 3⟩]

namespace Push

/-- The exact condition of `resizeWidth`'s rejection branch: the direct fit
fails and, after the rightward cascade settles, some pushed item's right edge
exceeds `GRID_COLUMNS`. -/
def resizeWidthRejected (items : List GridItem) (cid : String) (w : Int) : Bool :=
  match items.find? (fun i => i.componentId == cid) with
  | none => false
  | some comp =>
    let clamped := imax 1 (imin w GRID_COLUMNS)
    let others := items.filter (fun i => i.componentId != cid)
    !canFit others comp.x comp.y clamped comp.height none &&
      (cascadeRight { comp with width := clamped }
        (cascadeFuel { comp with width := clamped } others) others).any
        (fun i => i.x + i.width > GRID_COLUMNS)

/-- The exact condition of `resizeLeftEdge`'s rejection branch: the direct fit
fails and, after the leftward cascade settles, some pushed item's `x` is
negative. -/
def resizeLeftEdgeRejected (items : List GridItem) (cid : String) (newX : Int) : Bool :=
  match items.find? (fun i => i.componentId == cid) with
  | none => false
  | some comp =>
    let clampedX := imax 0 (imin newX (comp.x + comp.width - 1))
    let newWidth := comp.x + comp.width - clampedX
    let others := items.filter (fun i => i.componentId != cid)
    !canFit others clampedX comp.y newWidth comp.height none &&
      (cascadeLeft { comp with x := clampedX, width := newWidth }
        (cascadeFuel { comp with x := clampedX, width := newWidth } others) others).any
        (fun i => i.x < 0)

end Push

/-- `b` equals `a` in every field except possibly `x`. -/
def eqExceptX (a b : GridItem) : Prop :=
  a.componentId = b.componentId ∧ a.componentType = b.componentType ∧
    a.y = b.y ∧ a.height = b.height ∧ a.width = b.width

/-- Every member of `l'` is an `x`-variant of some member of `l`. -/
def framedX (l l' : List GridItem) : Prop := ∀ i ∈ l', ∃ j ∈ l, eqExceptX j i

/-- `b` equals `a` in every field except possibly `y`. -/
def eqExceptY (a b : GridItem) : Prop :=
  a.componentId = b.componentId ∧ a.componentType = b.componentType ∧
    a.x = b.x ∧ a.width = b.width ∧ a.height = b.height

/-- Every member of `l'` is a `y`-variant, moved only downward, of a member
of `l`. -/
def framedY (l l' : List GridItem) : Prop :=
  ∀ i ∈ l', ∃ j ∈ l, eqExceptY j i ∧ j.y ≤ i.y

/-- The ids of a layout, in order. -/
def itemIds (l : List GridItem) : List String := l.map (fun i => i.componentId)

/-- How many item occurrences are not yet in the pushed set. -/
def unpushedCount (st : List GridItem × List String) : Nat :=
  ((itemIds st.1).filter (fun s => !st.2.contains s)).length

/-! ### Generic lemmas about the downward free-cell scan -/

theorem findGo_spec (items : List GridItem) (cx w h : Int) (ex : Option String) :
    ∀ (n : Nat) (y x' y' : Int), Push.findGo items cx w h ex n y = some (x', y') →
      x' = cx ∧ y ≤ y' := by
  intro n
  induction n with
  | zero => intro y x' y' hfg; simp [Push.findGo] at hfg
  | succ n ih =>
    intro y x' y' hfg
    simp only [Push.findGo] at hfg
    by_cases hc : canFit items cx y w h ex = true
    · rw [if_pos hc] at hfg
      simp only [Option.some.injEq, Prod.mk.injEq] at hfg
      exact ⟨hfg.1.symm, le_of_eq hfg.2⟩
    · rw [if_neg hc] at hfg
      obtain ⟨h1, h2⟩ := ih (y + 1) x' y' hfg
      exact ⟨h1, by omega⟩

theorem findCell_spec (items : List GridItem) (cx cy w h : Int) (ex : Option String)
    (x y : Int) (hf : Push.findNearestFreeCell items cx cy w h ex = some (x, y)) :
    x = cx ∧ cy ≤ y := by
  unfold Push.findNearestFreeCell at hf
  exact findGo_spec items cx w h ex _ cy x y hf

/-! ### Claim theorems -/

/-- C1: after a *successful* engine operation on a valid layout, `validate`
must return the empty list.  The code violates this: on the valid layout
`exOut`, `resizeWidth "a" 8` succeeds (it returns a changed layout, not the
rejection outcome) yet the result fails validation, because the final bounds
check of `resizeWidth` scans only the pushed neighbours and never the resized
item itself. -/
theorem claim_C1_invariant_preservation_fails :
    validateLayout exOut = [] ∧
    Push.resizeWidth exOut "a" 8 ≠ exOut ∧
    Push.resizeWidth exOut "a" 8 = [⟨"a", "Chart", 6, 0, 8, 1⟩] ∧
    validateLayout (Push.resizeWidth exOut "a" 8) ≠ [] := by decide

/-- C2 (counterexample): `resizeWidth` as claimed — rejection or every item
(including the resized one) within the right bound — is false at `exOut`,
width 8. -/
theorem claim_C2_counterexample :
    ¬(Push.resizeWidth exOut "a" 8 = exOut ∨
      ∀ i ∈ Push.resizeWidth exOut "a" 8, i.x + i.width ≤ GRID_COLUMNS) := by decide

/-- C2 (amended): starting from a layout whose items all satisfy
`x + width ≤ GRID_COLUMNS`, `resizeWidth` either returns the input layout
unchanged or returns a layout in which every item *other than the resized one*
satisfies `x + width ≤ GRID_COLUMNS`; the resized item's own right edge is not
checked by the cascade-commit path. -/
theorem claim_C2_width_bound (items : List GridItem) (cid : String) (w : Int)
    (hin : ∀ i ∈ items, i.x + i.width ≤ GRID_COLUMNS) :
    Push.resizeWidth items cid w = items ∨
      ∀ i ∈ Push.resizeWidth items cid w, i.componentId ≠ cid →
        i.x + i.width ≤ GRID_COLUMNS := by
  cases hfind : items.find? (fun i => i.componentId == cid) with
  | none => left; simp [Push.resizeWidth, hfind]
  | some comp =>
    have hcid : comp.componentId = cid := by
      have := List.find?_some hfind
      exact eq_of_beq this
    simp only [Push.resizeWidth, hfind]
    by_cases hc : canFit (items.filter (fun i => i.componentId != cid)) comp.x comp.y
        (imax 1 (imin w GRID_COLUMNS)) comp.height none = true
    · right
      rw [if_pos hc]
      intro i hi hne
      rcases List.mem_append.mp hi with hmem | hmem
      · exact hin i (List.mem_of_mem_filter hmem)
      · simp only [List.mem_singleton] at hmem
        subst hmem
        exact absurd hcid hne
    · rw [if_neg hc]
      cases hany : (Push.cascadeRight { comp with width := imax 1 (imin w GRID_COLUMNS) }
          (Push.cascadeFuel { comp with width := imax 1 (imin w GRID_COLUMNS) }
            (items.filter (fun i => i.componentId != cid)))
          (items.filter (fun i => i.componentId != cid))).any
            (fun i => decide (i.x + i.width > GRID_COLUMNS)) with
      | true => left; simp
      | false =>
        right
        rw [if_neg (by simp)]
        intro i hi hne
        rcases List.mem_append.mp hi with hmem | hmem
        · have := List.any_eq_false.mp hany i hmem
          simp only [decide_eq_true_eq] at this
          omega
        · simp only [List.mem_singleton] at hmem
          subst hmem
          exact absurd hcid hne

/-- C2 witness: the amended statement applied at the concrete out-of-bounds
scenario. -/
theorem claim_C2_width_bound_witness :
    Push.resizeWidth exOut "a" 8 = exOut ∨
      ∀ i ∈ Push.resizeWidth exOut "a" 8, i.componentId ≠ "a" →
        i.x + i.width ≤ GRID_COLUMNS :=
  claim_C2_width_bound exOut "a" 8 (by decide)

/-- C4 (theorem, amended to the downward-scan engine): a successful downward
free-cell search returns exactly the requested column and a row at or below the
request, and the push engine's `add`/`reposition` place the item at the
requested `x`. -/
theorem claim_C4_free_cell_locks_x (items : List GridItem) (cx cy w h : Int)
    (ex : Option String) (ni : GridItem) (cid : String) (px py : Int) :
    (∀ x y, Push.findNearestFreeCell items cx cy w h ex = some (x, y) →
      x = cx ∧ cy ≤ y) ∧
    (∀ l, Push.addComponent items ni = some l →
      ∃ y, ni.y ≤ y ∧ l = items ++ [{ ni with y := y }]) ∧
    (∀ comp l, items.find? (fun i => i.componentId == cid) = some comp →
      Push.repositionComponent items cid px py = some l →
      ∃ y, py ≤ y ∧
        l = (items.filter (fun i => i.componentId != cid)) ++
          [{ comp with x := px, y := y }]) := by
  refine ⟨fun x y hf => findCell_spec items cx cy w h ex x y hf, ?_, ?_⟩
  · intro l hl
    cases hf : Push.findNearestFreeCell items ni.x ni.y ni.width ni.height none with
    | none => simp [Push.addComponent, hf] at hl
    | some pos =>
      obtain ⟨x0, y0⟩ := pos
      obtain ⟨hx, hy⟩ := findCell_spec items ni.x ni.y ni.width ni.height none x0 y0 hf
      subst hx
      simp only [Push.addComponent, hf, Option.some.injEq] at hl
      exact ⟨y0, hy, hl.symm⟩
  · intro comp l hfind hl
    simp only [Push.repositionComponent, hfind] at hl
    cases hf : Push.findNearestFreeCell (items.filter (fun i => i.componentId != cid))
        px py comp.width comp.height none with
    | none => rw [hf] at hl; simp at hl
    | some pos =>
      obtain ⟨x0, y0⟩ := pos
      obtain ⟨hx, hy⟩ := findCell_spec _ px py comp.width comp.height none x0 y0 hf
      subst hx
      rw [hf] at hl
      simp only [Option.some.injEq] at hl
      exact ⟨y0, hy, hl.symm⟩

/-- C4 witness: the downward-scan statement applied at a concrete blocked
target: the search from `(1, 0)` lands at `(1, 1)`, and `addComponent` places
the new item at the requested column. -/
theorem claim_C4_free_cell_locks_x_witness :
    ∃ y, niEx.y ≤ y ∧
      exSpiral ++ [⟨"n", "KPI", 1, 1, 1, 1⟩] = exSpiral ++ [{ niEx with y := y }] :=
  (claim_C4_free_cell_locks_x exSpiral 1 0 1 1 none niEx "z" 0 0).2.1
    (exSpiral ++ [⟨"n", "KPI", 1, 1, 1, 1⟩]) (by decide)

/-- C4 (counterexample): the spiral-search variant of `findNearestFreeCell`
does not lock `x`: with cell `(1, 0)` occupied it answers `(0, 0)` for target
column 1. -/
theorem claim_C4_counterexample :
    ∃ x y, Spiral.findNearestFreeCell exSpiral 1 0 1 1 none = some (x, y) ∧ x ≠ 1 :=
  ⟨0, 0, by decide, by decide⟩

/-- C5: growing `A` to width 4 in `exCascade` pushes `B` to `x = 4` and — via
`B`'s taller span — pushes `C` to `x = 6`, all other fields unchanged. -/
theorem claim_C5_cascade_scenario :
    Push.resizeWidth exCascade "a" 4 =
      [⟨"b", "Chart", 4, 0, 2, 3⟩, ⟨"c", "Chart", 6, 1, 2, 1⟩,
        ⟨"a", "Chart", 0, 0, 4, 1⟩] := by decide

/-- C8: `removeComponent` returns a sublist of the input (so every surviving
record is bitwise unchanged), keeps exactly the items whose id differs, and is
the identity when the id is absent. -/
theorem claim_C8_remove_filter (items : List GridItem) (cid : String) :
    (Push.removeComponent items cid).Sublist items ∧
    (∀ i, i ∈ Push.removeComponent items cid ↔ i ∈ items ∧ i.componentId ≠ cid) ∧
    ((∀ i ∈ items, i.componentId ≠ cid) → Push.removeComponent items cid = items) := by
  refine ⟨List.filter_sublist items, ?_, ?_⟩
  · intro i
    simp [Push.removeComponent, List.mem_filter, bne_iff_ne]
  · intro h
    exact List.filter_eq_self.mpr (fun a ha => bne_iff_ne.mpr (h a ha))

/-- C8 witness: removing an absent id from `exTwoRows` returns it unchanged. -/
theorem claim_C8_remove_filter_witness :
    Push.removeComponent exTwoRows "z" = exTwoRows :=
  (claim_C8_remove_filter exTwoRows "z").2.2 (by decide)

/-- C10: when no item carries the requested id, all three resize operations
return the input list itself (the absent-id case is a silent no-op). -/
theorem claim_C10_absent_id_noop (items : List GridItem) (cid : String) (w nx nh : Int)
    (habs : items.find? (fun i => i.componentId == cid) = none) :
    Push.resizeWidth items cid w = items ∧
    Push.resizeLeftEdge items cid nx = items ∧
    Push.resizeHeight items cid nh = items := by
  refine ⟨?_, ?_, ?_⟩ <;> simp [Push.resizeWidth, Push.resizeLeftEdge, Push.resizeHeight, habs]

/-- C10 witness: the no-op applied at `exTwoRows` with the absent id `"z"`. -/
theorem claim_C10_absent_id_noop_witness :
    Push.resizeWidth exTwoRows "z" 5 = exTwoRows ∧
    Push.resizeLeftEdge exTwoRows "z" 3 = exTwoRows ∧
    Push.resizeHeight exTwoRows "z" 2 = exTwoRows :=
  claim_C10_absent_id_noop exTwoRows "z" 5 3 2 (by decide)

/-! ### Atomicity of the rejection branches -/

/-- C3: rejections are atomic.  When `resizeWidth`/`resizeLeftEdge` take their
rejection branch they return the input list itself, and `add`/`reposition`
either report `none` (no layout at all) or return the untouched input items
plus exactly the placed item — never a partially modified list. -/
theorem claim_C3_atomic_rejection (items : List GridItem) (ni : GridItem) (cid : String)
    (w nx px py : Int) :
    (Push.resizeWidthRejected items cid w = true → Push.resizeWidth items cid w = items) ∧
    (Push.resizeLeftEdgeRejected items cid nx = true →
      Push.resizeLeftEdge items cid nx = items) ∧
    (Push.addComponent items ni = none ∨
      ∃ x y, Push.addComponent items ni = some (items ++ [{ ni with x := x, y := y }])) ∧
    (Push.repositionComponent items cid px py = none ∨
      ∃ comp x y, items.find? (fun i => i.componentId == cid) = some comp ∧
        Push.repositionComponent items cid px py =
          some ((items.filter (fun i => i.componentId != cid)) ++
            [{ comp with x := x, y := y }])) := by
  refine ⟨?_, ?_, ?_, ?_⟩
  · intro hrej
    cases hfind : items.find? (fun i => i.componentId == cid) with
    | none => simp [Push.resizeWidthRejected, hfind] at hrej
    | some comp =>
      simp only [Push.resizeWidthRejected, hfind, Bool.and_eq_true, Bool.not_eq_true'] at hrej
      obtain ⟨hnofit, hany⟩ := hrej
      simp only [Push.resizeWidth, hfind]
      rw [if_neg (by simp [hnofit]), if_pos hany]
  · intro hrej
    cases hfind : items.find? (fun i => i.componentId == cid) with
    | none => simp [Push.resizeLeftEdgeRejected, hfind] at hrej
    | some comp =>
      simp only [Push.resizeLeftEdgeRejected, hfind, Bool.and_eq_true, Bool.not_eq_true'] at hrej
      obtain ⟨hnofit, hany⟩ := hrej
      simp only [Push.resizeLeftEdge, hfind]
      rw [if_neg (by simp [hnofit]), if_pos hany]
  · cases hf : Push.findNearestFreeCell items ni.x ni.y ni.width ni.height none with
    | none => left; simp [Push.addComponent, hf]
    | some pos => right; exact ⟨pos.1, pos.2, by simp [Push.addComponent, hf]⟩
  · cases hfind : items.find? (fun i => i.componentId == cid) with
    | none => left; simp [Push.repositionComponent, hfind]
    | some comp =>
      cases hf : Push.findNearestFreeCell (items.filter (fun i => i.componentId != cid))
          px py comp.width comp.height none with
      | none => left; simp [Push.repositionComponent, hfind, hf]
      | some pos =>
        right; exact ⟨comp, pos.1, pos.2, hfind ▸ rfl, by simp [Push.repositionComponent, hfind, hf]⟩

/-- C3 witness: the two rejection branches at concrete rejected resizes. -/
theorem claim_C3_atomic_rejection_witness :
    Push.resizeWidth exReject "a" 8 = exReject ∧
    Push.resizeLeftEdge exLeftPair "b" 1 = exLeftPair :=
  ⟨(claim_C3_atomic_rejection exReject niEx "a" 8 1 0 0).1 (by decide),
   (claim_C3_atomic_rejection exLeftPair niEx "b" 8 1 0 0).2.1 (by decide)⟩

/-! ### Frame lemmas: the horizontal cascades only ever change `x` -/

theorem eqExceptX_refl (a : GridItem) : eqExceptX a a := ⟨rfl, rfl, rfl, rfl, rfl⟩

theorem eqExceptX_trans {a b c : GridItem} (h1 : eqExceptX a b) (h2 : eqExceptX b c) :
    eqExceptX a c :=
  ⟨h1.1.trans h2.1, h1.2.1.trans h2.2.1, h1.2.2.1.trans h2.2.2.1,
    h1.2.2.2.1.trans h2.2.2.2.1, h1.2.2.2.2.trans h2.2.2.2.2⟩

theorem framedX_refl (l : List GridItem) : framedX l l :=
  fun i hi => ⟨i, hi, eqExceptX_refl i⟩

theorem framedX_trans {a b c : List GridItem} (h1 : framedX a b) (h2 : framedX b c) :
    framedX a c := by
  intro i hi
  obtain ⟨j, hj, e2⟩ := h2 i hi
  obtain ⟨k, hk, e1⟩ := h1 j hj
  exact ⟨k, hk, eqExceptX_trans e1 e2⟩

theorem framedX_set {l : List GridItem} {k : Nat} {a : GridItem} (b : GridItem)
    (hget : l.get? k = some a) (hx : eqExceptX a b) : framedX l (l.set k b) := by
  intro i hi
  rcases List.mem_or_eq_of_mem_set hi with h | h
  · exact ⟨i, h, eqExceptX_refl i⟩
  · exact ⟨a, List.get?_mem hget, h ▸ hx⟩

theorem mem_insSorted {α : Type} (le : α → α → Bool) (x a : α) :
    ∀ l : List α, a ∈ insSorted le x l ↔ a = x ∨ a ∈ l := by
  intro l
  induction l with
  | nil => simp [insSorted]
  | cons b bs ih =>
    simp only [insSorted]
    split
    · simp only [List.mem_cons, ih]
      try tauto
    · simp only [List.mem_cons]
      try tauto

theorem mem_stableSort {α : Type} (le : α → α → Bool) (l : List α) (a : α) :
    a ∈ stableSort le l ↔ a ∈ l := by
  suffices h : ∀ (l acc : List α),
      (a ∈ l.foldl (fun acc x => insSorted le x acc) acc ↔ a ∈ acc ∨ a ∈ l) by
    simpa [stableSort] using h l []
  intro l
  induction l with
  | nil => intro acc; simp
  | cons b bs ih =>
    intro acc
    rw [List.foldl_cons, ih, mem_insSorted]
    simp only [List.mem_cons]
    tauto

theorem framedX_stableSort (le : GridItem → GridItem → Bool) (l : List GridItem) :
    framedX l (stableSort le l) :=
  fun i hi => ⟨i, (mem_stableSort le l i).mp hi, eqExceptX_refl i⟩

theorem framedX_sortXDesc (st : List GridItem) : framedX st (sortXDesc st) :=
  framedX_stableSort _ st

theorem innerLeft_framedX (item : GridItem) :
    ∀ (n j : Nat) (st : List GridItem) (ch : Bool),
      framedX st (Push.innerLeft item n j st ch).1 := by
  intro n
  induction n with
  | zero => intro j st ch; exact framedX_refl st
  | succ n ih =>
    intro j st ch
    cases hg : st.get? j with
    | none => simp only [Push.innerLeft, hg]; exact framedX_refl st
    | some other =>
      simp only [Push.innerLeft, hg]
      split
      · exact ih (j + 1) st ch
      · split
        · split
          · refine framedX_trans
              (framedX_set { other with x := imin other.x (item.x - other.width) } hg
                ⟨rfl, rfl, rfl, rfl, rfl⟩) ?_
            exact ih (j + 1) _ true
          · exact ih (j + 1) st ch
        · exact ih (j + 1) st ch

theorem outerLeft_framedX (resized : GridItem) :
    ∀ (n k : Nat) (st : List GridItem) (ch : Bool),
      framedX st (Push.outerLeft resized n k st ch).1 := by
  intro n
  induction n with
  | zero => intro k st ch; exact framedX_refl st
  | succ n ih =>
    intro k st ch
    cases hg : st.get? k with
    | none => simp only [Push.outerLeft, hg]; exact framedX_refl st
    | some item0 =>
      simp only [Push.outerLeft, hg]
      split
      · split
        · refine framedX_trans
            (framedX_set { item0 with x := resized.x - item0.width } hg
              ⟨rfl, rfl, rfl, rfl, rfl⟩) ?_
          refine framedX_trans ?_ (ih (k + 1) _ _)
          exact innerLeft_framedX _ _ _ _ _
        · refine framedX_trans ?_ (ih (k + 1) _ _)
          exact innerLeft_framedX _ _ _ _ _
      · refine framedX_trans ?_ (ih (k + 1) _ _)
        exact innerLeft_framedX _ _ _ _ _

theorem cascadeLeft_framedX (resized : GridItem) :
    ∀ (f : Nat) (st : List GridItem), framedX st (Push.cascadeLeft resized f st) := by
  intro f
  induction f with
  | zero => intro st; exact framedX_refl st
  | succ f ih =>
    intro st
    simp only [Push.cascadeLeft]
    split
    · refine framedX_trans ?_ (ih _)
      refine framedX_trans (framedX_sortXDesc st) ?_
      exact outerLeft_framedX _ _ _ _ _
    · refine framedX_trans (framedX_sortXDesc st) ?_
      exact outerLeft_framedX _ _ _ _ _

/-- C6: `resizeLeftEdge` either rejects (input returned unchanged, covered by
the `j := i` case) or returns a layout where every item keeps its id, type,
`y` and `height`; the resized item keeps its right edge `x + width`, and every
other item keeps its width (only its `x` may change). -/
theorem claim_C6_left_edge_fixed_right (items : List GridItem) (cid : String) (nx : Int) :
    ∀ i ∈ Push.resizeLeftEdge items cid nx, ∃ j ∈ items,
      i.componentId = j.componentId ∧ i.componentType = j.componentType ∧
      i.y = j.y ∧ i.height = j.height ∧
      (i.componentId = cid → i.x + i.width = j.x + j.width) ∧
      (i.componentId ≠ cid → i.width = j.width) := by
  intro i hi
  cases hfind : items.find? (fun i => i.componentId == cid) with
  | none =>
    simp only [Push.resizeLeftEdge, hfind] at hi
    exact ⟨i, hi, rfl, rfl, rfl, rfl, fun _ => rfl, fun _ => rfl⟩
  | some comp =>
    have hcid : comp.componentId = cid := by
      have := List.find?_some hfind
      exact eq_of_beq this
    have hcomp_mem : comp ∈ items := List.mem_of_find?_eq_some hfind
    simp only [Push.resizeLeftEdge, hfind] at hi
    split at hi
    · rcases List.mem_append.mp hi with hmem | hmem
      · have hne : i.componentId ≠ cid := by
          simpa [bne_iff_ne] using (List.mem_filter.mp hmem).2
        exact ⟨i, List.mem_of_mem_filter hmem, rfl, rfl, rfl, rfl,
          fun hcontr => absurd hcontr hne, fun _ => rfl⟩
      · simp only [List.mem_singleton] at hmem
        subst hmem
        exact ⟨comp, hcomp_mem, rfl, rfl, rfl, rfl, fun _ => by dsimp only; omega,
          fun hne => absurd hcid hne⟩
    · split at hi
      · exact ⟨i, hi, rfl, rfl, rfl, rfl, fun _ => rfl, fun _ => rfl⟩
      · rcases List.mem_append.mp hi with hmem | hmem
        · obtain ⟨j, hj, e⟩ := cascadeLeft_framedX _ _ _ i hmem
          have hne : j.componentId ≠ cid := by
            simpa [bne_iff_ne] using (List.mem_filter.mp hj).2
          obtain ⟨e1, e2, e3, e4, e5⟩ := e
          exact ⟨j, List.mem_of_mem_filter hj, e1.symm, e2.symm, e3.symm, e4.symm,
            fun hcontr => absurd (e1.trans hcontr) hne, fun _ => e5.symm⟩
        · simp only [List.mem_singleton] at hmem
          subst hmem
          exact ⟨comp, hcomp_mem, rfl, rfl, rfl, rfl, fun _ => by dsimp only; omega,
            fun hne => absurd hcid hne⟩

/-- C6 witness: the statement applied to a concrete successful left-edge
resize (`a` grown from `(6,·,6)` to `(5,·,7)`, right edge 12 preserved). -/
theorem claim_C6_left_edge_fixed_right_witness :
    ∃ j ∈ exOut,
      ("a" : String) = j.componentId ∧ ("Chart" : String) = j.componentType ∧
      (0 : Int) = j.y ∧ (1 : Int) = j.height ∧
      (("a" : String) = "a" → (5 : Int) + 7 = j.x + j.width) ∧
      (("a" : String) ≠ "a" → (7 : Int) = j.width) :=
  claim_C6_left_edge_fixed_right exOut "a" 5 ⟨"a", "Chart", 5, 0, 7, 1⟩ (by decide)

/-- C9: the two bundled engines disagree about remove.  The domino-push
`removeComponent` is a filter, so every remaining item is an unchanged record
of the input; the gravity/stabilize `removeComponent` on the valid layout
`exTwoRows` floats `b` up from `y = 2` to `y = 0` (violating the no-gravity
rule), so the two functions differ at that input. -/
theorem claim_C9_variants_inconsistent :
    (∀ (items : List GridItem) (cid : String),
      ∀ i ∈ Push.removeComponent items cid, i ∈ items) ∧
    Push.removeComponent exTwoRows "a" = [⟨"b", "KPI", 0, 2, 2, 1⟩] ∧
    Gravity.removeComponent exTwoRows "a" = [⟨"b", "KPI", 0, 0, 2, 1⟩] ∧
    Gravity.removeComponent exTwoRows "a" ≠ Push.removeComponent exTwoRows "a" :=
  ⟨fun _ _ _ hi => List.mem_of_mem_filter hi, by decide, by decide, by decide⟩

/-- C9 witness: the membership clause applied at the concrete removal. -/
theorem claim_C9_variants_inconsistent_witness :
    (⟨"b", "KPI", 0, 2, 2, 1⟩ : GridItem) ∈ exTwoRows :=
  claim_C9_variants_inconsistent.1 exTwoRows "a" ⟨"b", "KPI", 0, 2, 2, 1⟩ (by decide)

/-! ### Frame lemmas: the height push only moves items downward -/

theorem framedY_refl (l : List GridItem) : framedY l l :=
  fun i hi => ⟨i, hi, ⟨rfl, rfl, rfl, rfl, rfl⟩, le_refl _⟩

theorem framedY_trans {a b c : List GridItem} (h1 : framedY a b) (h2 : framedY b c) :
    framedY a c := by
  intro i hi
  obtain ⟨j, hj, e2, hy2⟩ := h2 i hi
  obtain ⟨k, hk, e1, hy1⟩ := h1 j hj
  exact ⟨k, hk, ⟨e1.1.trans e2.1, e1.2.1.trans e2.2.1, e1.2.2.1.trans e2.2.2.1,
    e1.2.2.2.1.trans e2.2.2.2.1, e1.2.2.2.2.trans e2.2.2.2.2⟩, hy1.trans hy2⟩

theorem framedY_set {l : List GridItem} {k : Nat} {a : GridItem} (b : GridItem)
    (hget : l.get? k = some a) (he : eqExceptY a b) (hy : a.y ≤ b.y) :
    framedY l (l.set k b) := by
  intro i hi
  rcases List.mem_or_eq_of_mem_set hi with h | h
  · exact ⟨i, h, ⟨rfl, rfl, rfl, rfl, rfl⟩, le_refl _⟩
  · exact ⟨a, List.get?_mem hget, h ▸ he, h ▸ hy⟩

/-- Every verdict of the push classifier keeps all fields but `y` and only
moves the item downward (given a genuine growth `oldB < newB`). -/
theorem pushVerdict_spec {oldB newB : Int} {item item2 : GridItem}
    (hv : Push.pushVerdict oldB newB item = some item2) (hlt : oldB < newB) :
    eqExceptY item item2 ∧ item.y ≤ item2.y := by
  unfold Push.pushVerdict at hv
  split_ifs at hv with h1 h2 h3
  all_goals
    simp only [Option.some.injEq] at hv
    subst hv
    exact ⟨⟨rfl, rfl, rfl, rfl, rfl⟩, by dsimp only; omega⟩

theorem pushLoop_framedY (gas : Nat) :
    ∀ (srcX srcW oldB newB : Int) (n k : Nat) (st : List GridItem × List String),
      oldB < newB →
      framedY st.1 (Push.pushLoop srcX srcW oldB newB gas n k st).1 ∧
      (Push.pushLoop srcX srcW oldB newB gas n k st).1.length = st.1.length := by
  induction gas with
  | zero =>
    intro srcX srcW oldB newB n k st _
    rw [Push.pushLoop]
    exact ⟨framedY_refl _, rfl⟩
  | succ gas ih =>
    intro srcX srcW oldB newB n k st hlt
    rw [Push.pushLoop]
    split
    · cases hg : st.1.get? k with
      | none => simp only [hg]; exact ⟨framedY_refl _, by first | rfl | trivial⟩
      | some item =>
        simp only [hg]
        split
        · exact ih srcX srcW oldB newB n (k + 1) st hlt
        · split
          · cases hv : Push.pushVerdict oldB newB item with
            | none => simp only [hv]; exact ih srcX srcW oldB newB n (k + 1) st hlt
            | some item2 =>
              simp only [hv]
              obtain ⟨he, hy⟩ := pushVerdict_spec hv hlt
              have hset : framedY st.1 (st.1.set k item2) := framedY_set item2 hg he hy
              split
              · obtain ⟨h1, h2⟩ := ih srcX srcW oldB newB n (k + 1)
                  (st.1.set k item2, item.componentId :: st.2) hlt
                exact ⟨framedY_trans hset h1, h2.trans (List.length_set _ _ _)⟩
              · rename_i hguard
                have hlt2 : item.y + item.height < item2.y + item2.height := by omega
                obtain ⟨hn1, hn2⟩ := ih item2.x item2.width (item.y + item.height)
                  (item2.y + item2.height) (st.1.set k item2, item.componentId :: st.2).1.length 0
                  (st.1.set k item2, item.componentId :: st.2) hlt2
                obtain ⟨hc1, hc2⟩ := ih srcX srcW oldB newB n (k + 1)
                  (Push.pushLoop item2.x item2.width (item.y + item.height)
                    (item2.y + item2.height) gas
                    (st.1.set k item2, item.componentId :: st.2).1.length 0
                    (st.1.set k item2, item.componentId :: st.2)) hlt
                refine ⟨framedY_trans hset (framedY_trans hn1 hc1), ?_⟩
                rw [hc2, hn2]
                exact List.length_set _ _ _
          · exact ih srcX srcW oldB newB n (k + 1) st hlt
    · exact ⟨framedY_refl _, rfl⟩

/-! (The C7 claim theorem follows after the push-budget lemmas below.) -/

/-! ### The push budget of `resizeHeight` is immaterial: the pushed-id set
bounds the real recursion, so any budget at least `(n+1)*(n+2)+1` gives the
same result -/

theorem set_get_self {α : Type} (l : List α) :
    ∀ (k : Nat) (a : α), l.get? k = some a → l.set k a = l := by
  induction l with
  | nil => intro k a h; simp at h
  | cons x xs ih =>
    intro k a h
    cases k with
    | zero =>
      simp only [List.get?] at h
      injection h with h
      subst h
      rfl
    | succ k =>
      simp only [List.get?] at h
      simp only [List.set]
      rw [ih k a h]

theorem itemIds_set {l : List GridItem} {k : Nat} {item item2 : GridItem}
    (hget : l.get? k = some item) (hid : item2.componentId = item.componentId) :
    itemIds (l.set k item2) = itemIds l := by
  unfold itemIds
  simp only [List.map_set]
  rw [hid]
  apply set_get_self
  rw [List.get?_map, hget]
  rfl

theorem pushVerdict_id {oldB newB : Int} {item item2 : GridItem}
    (hv : Push.pushVerdict oldB newB item = some item2) :
    item2.componentId = item.componentId := by
  unfold Push.pushVerdict at hv
  split_ifs at hv
  all_goals
    simp only [Option.some.injEq] at hv
    subst hv
    rfl

theorem pushLoop_ids (gas : Nat) :
    ∀ (srcX srcW oldB newB : Int) (n k : Nat) (st : List GridItem × List String),
      itemIds (Push.pushLoop srcX srcW oldB newB gas n k st).1 = itemIds st.1 := by
  induction gas with
  | zero => intro srcX srcW oldB newB n k st; rw [Push.pushLoop]
  | succ gas ih =>
    intro srcX srcW oldB newB n k st
    rw [Push.pushLoop]
    split
    · cases hg : st.1.get? k with
      | none => simp only [hg]
      | some item =>
        simp only [hg]
        split
        · exact ih _ _ _ _ _ _ _
        · split
          · cases hv : Push.pushVerdict oldB newB item with
            | none => simp only [hv]; exact ih _ _ _ _ _ _ _
            | some item2 =>
              simp only [hv]
              have hset : itemIds (st.1.set k item2) = itemIds st.1 :=
                itemIds_set hg (pushVerdict_id hv)
              split
              · rw [ih _ _ _ _ _ _ _]; exact hset
              · rw [ih _ _ _ _ _ _ _, ih _ _ _ _ _ _ _]; exact hset
          · exact ih _ _ _ _ _ _ _
    · rfl

theorem pushLoop_len (gas : Nat) (srcX srcW oldB newB : Int) (n k : Nat)
    (st : List GridItem × List String) :
    (Push.pushLoop srcX srcW oldB newB gas n k st).1.length = st.1.length := by
  have h := congrArg List.length (pushLoop_ids gas srcX srcW oldB newB n k st)
  simpa [itemIds] using h

theorem pushLoop_pushed (gas : Nat) :
    ∀ (srcX srcW oldB newB : Int) (n k : Nat) (st : List GridItem × List String)
      (s : String), s ∈ st.2 → s ∈ (Push.pushLoop srcX srcW oldB newB gas n k st).2 := by
  induction gas with
  | zero => intro srcX srcW oldB newB n k st s hs; rw [Push.pushLoop]; exact hs
  | succ gas ih =>
    intro srcX srcW oldB newB n k st s hs
    rw [Push.pushLoop]
    split
    · cases hg : st.1.get? k with
      | none => simp only [hg]; exact hs
      | some item =>
        simp only [hg]
        split
        · exact ih _ _ _ _ _ _ _ _ hs
        · split
          · cases hv : Push.pushVerdict oldB newB item with
            | none => simp only [hv]; exact ih _ _ _ _ _ _ _ _ hs
            | some item2 =>
              simp only [hv]
              have hs1 : s ∈ item.componentId :: st.2 := List.mem_cons_of_mem _ hs
              split
              · exact ih _ _ _ _ _ _ _ _ hs1
              · exact ih _ _ _ _ _ _ _ _ (ih _ _ _ _ _ _ _ _ hs1)
          · exact ih _ _ _ _ _ _ _ _ hs
    · exact hs

theorem unpushed_mono (gas : Nat) (srcX srcW oldB newB : Int) (n k : Nat)
    (st : List GridItem × List String) :
    unpushedCount (Push.pushLoop srcX srcW oldB newB gas n k st) ≤ unpushedCount st := by
  unfold unpushedCount
  rw [pushLoop_ids]
  apply List.Sublist.length_le
  apply List.monotone_filter_right
  intro a ha
  simp only [Bool.not_eq_true'] at ha ⊢
  cases hcc : st.2.contains a with
  | false => rfl
  | true =>
    have hmem : a ∈ st.2 := List.elem_iff.mp hcc
    have h2 : (Push.pushLoop srcX srcW oldB newB gas n k st).2.contains a = true :=
      List.elem_iff.mpr (pushLoop_pushed gas srcX srcW oldB newB n k st a hmem)
    rw [h2] at ha
    simp at ha

theorem filter_length_lt {α : Type} (p q : α → Bool) :
    ∀ (L : List α) (a : α), a ∈ L → q a = true → p a = false →
      (∀ x, p x = true → q x = true) → (L.filter p).length < (L.filter q).length := by
  intro L
  induction L with
  | nil => intro a ha; simp at ha
  | cons x xs ih =>
    intro a ha hq hp him
    rcases List.mem_cons.mp ha with rfl | hmem
    · simp only [List.filter_cons, hp, hq, if_true]
      simp only [Bool.false_eq_true, if_false, List.length_cons]
      exact Nat.lt_succ_of_le (List.Sublist.length_le (List.monotone_filter_right xs him))
    · cases hx : p x with
      | false =>
        simp only [List.filter_cons, hx, Bool.false_eq_true, if_false]
        cases hqx : q x with
        | false =>
          simp only [Bool.false_eq_true, if_false]
          exact ih a hmem hq hp him
        | true =>
          simp only [if_true, List.length_cons]
          exact Nat.lt_succ_of_lt (ih a hmem hq hp him)
      | true =>
        have hqx : q x = true := him x hx
        simp only [List.filter_cons, hx, hqx, if_true, List.length_cons]
        exact Nat.succ_lt_succ (ih a hmem hq hp him)

theorem unpushed_push_lt {st : List GridItem × List String} {k : Nat} {item : GridItem}
    (item2 : GridItem) (hg : st.1.get? k = some item)
    (hid : item2.componentId = item.componentId)
    (hnc : st.2.contains item.componentId = false) :
    unpushedCount (st.1.set k item2, item.componentId :: st.2) < unpushedCount st := by
  unfold unpushedCount
  rw [show itemIds ((st.1.set k item2, item.componentId :: st.2).1) = itemIds st.1 from
    itemIds_set hg hid]
  apply filter_length_lt _ _ _ item.componentId
  · unfold itemIds
    exact List.mem_map_of_mem _ (List.get?_mem hg)
  · simp only [Bool.not_eq_true']
    exact hnc
  · simp [List.contains_cons]
  · intro x hx
    simp only [List.contains_cons, Bool.not_eq_true', Bool.or_eq_false_iff] at hx ⊢
    exact hx.2

theorem pushLoop_gas_succ :
    ∀ (g : Nat) (srcX srcW oldB newB : Int) (n k : Nat) (st : List GridItem × List String),
      st.1.length = n →
      (n - k) + 1 + unpushedCount st * (n + 2) ≤ g →
      Push.pushLoop srcX srcW oldB newB g n k st =
        Push.pushLoop srcX srcW oldB newB (g + 1) n k st := by
  intro g
  induction g with
  | zero => intro srcX srcW oldB newB n k st hlen hb; omega
  | succ g ih =>
    intro srcX srcW oldB newB n k st hlen hb
    conv_lhs => rw [Push.pushLoop]
    conv_rhs => rw [Push.pushLoop]
    split
    · rename_i hk
      cases hg : st.1.get? k with
      | none => simp only [hg]
      | some item =>
        simp only [hg]
        split
        · exact ih srcX srcW oldB newB n (k + 1) st hlen (by omega)
        · rename_i hcont
          have hnc : st.2.contains item.componentId = false := by simpa using hcont
          split
          · cases hv : Push.pushVerdict oldB newB item with
            | none =>
              simp only [hv]
              exact ih srcX srcW oldB newB n (k + 1) st hlen (by omega)
            | some item2 =>
              simp only [hv]
              have hid := pushVerdict_id hv
              have hdec := unpushed_push_lt item2 hg hid hnc
              have hmul : unpushedCount (st.1.set k item2, item.componentId :: st.2) * (n + 2)
                  + (n + 2) ≤ unpushedCount st * (n + 2) := by
                calc unpushedCount (st.1.set k item2, item.componentId :: st.2) * (n + 2) + (n + 2)
                    = (unpushedCount (st.1.set k item2, item.componentId :: st.2) + 1) * (n + 2) := by
                      ring
                  _ ≤ unpushedCount st * (n + 2) := Nat.mul_le_mul_right _ hdec
              have hlen1 : (st.1.set k item2).length = n := by rw [List.length_set, hlen]
              split
              · exact ih srcX srcW oldB newB n (k + 1)
                  (st.1.set k item2, item.componentId :: st.2) hlen1 (by omega)
              · have hnest := ih item2.x item2.width (item.y + item.height)
                  (item2.y + item2.height) (st.1.set k item2).length 0
                  (st.1.set k item2, item.componentId :: st.2) rfl
                  (by rw [hlen1]; omega)
                rw [← hnest]
                have hm2 : unpushedCount (Push.pushLoop item2.x item2.width
                    (item.y + item.height) (item2.y + item2.height) g
                    (st.1.set k item2).length 0
                    (st.1.set k item2, item.componentId :: st.2)) * (n + 2) ≤
                    unpushedCount (st.1.set k item2, item.componentId :: st.2) * (n + 2) :=
                  Nat.mul_le_mul_right _ (unpushed_mono g _ _ _ _ _ _ _)
                refine ih srcX srcW oldB newB n (k + 1) _ ?_ (by omega)
                rw [pushLoop_len]
                exact hlen1
          · exact ih srcX srcW oldB newB n (k + 1) st hlen (by omega)
    · rfl

theorem pushLoop_gas_of_le (g1 g2 : Nat) (srcX srcW oldB newB : Int) (n k : Nat)
    (st : List GridItem × List String) (hlen : st.1.length = n)
    (hbound : (n - k) + 1 + unpushedCount st * (n + 2) ≤ g1) (h12 : g1 ≤ g2) :
    Push.pushLoop srcX srcW oldB newB g1 n k st =
      Push.pushLoop srcX srcW oldB newB g2 n k st := by
  induction h12 with
  | refl => rfl
  | step h ih =>
    exact ih.trans (pushLoop_gas_succ _ srcX srcW oldB newB n k st hlen (hbound.trans h))

theorem unpushed_nil (l : List GridItem) :
    unpushedCount (l, ([] : List String)) = l.length := by
  unfold unpushedCount itemIds
  dsimp only
  have hall : ∀ a ∈ (l.map fun i => i.componentId),
      (fun s => !(([] : List String).contains s)) a = true := by
    intro a _
    simp [List.contains_nil]
  rw [List.filter_eq_self.mpr hall, List.length_map]

/-- Any budget at least the one `resizeHeight` supplies gives the same push
result: the recursive push genuinely terminates within that budget. -/
theorem pushDownH_gas (l : List GridItem) (srcX srcW oldB newB : Int) (extra : Nat) :
    Push.pushDownH ((l.length + 1) * (l.length + 2) + 1 + extra) srcX srcW oldB newB
        (l, []) =
      Push.pushDownH ((l.length + 1) * (l.length + 2) + 1) srcX srcW oldB newB (l, []) := by
  unfold Push.pushDownH
  split
  · rfl
  · refine (pushLoop_gas_of_le ((l.length + 1) * (l.length + 2) + 1)
      ((l.length + 1) * (l.length + 2) + 1 + extra) srcX srcW oldB newB
      (l, ([] : List String)).1.length 0 (l, ([] : List String)) rfl ?_
      (Nat.le_add_right _ _)).symm
    rw [unpushed_nil]
    dsimp only
    have hexp : (l.length + 1) * (l.length + 2) = l.length * (l.length + 2) + (l.length + 2) :=
      by ring
    omega

/-- C7: `resizeHeight` with a present id always commits: the result is some
list `rest` plus the resized item at the clamped height — never a rejection
outcome (there is no rejection branch).  Every item of `rest` is an item of
the input moved only downward (`x`, `width`, `height`, id and type intact).
Moreover the recursive push terminates within the budget `resizeHeight`
supplies: any larger budget produces the same push result. -/
theorem claim_C7_height_never_rejects (items : List GridItem) (cid : String) (h : Int)
    (comp : GridItem) (hfind : items.find? (fun i => i.componentId == cid) = some comp) :
    (∃ rest, Push.resizeHeight items cid h =
        rest ++ [{ comp with height := imax 1 (imin h MAX_COMPONENT_HEIGHT) }] ∧
      rest.length = (items.filter (fun i => i.componentId != cid)).length ∧
      ∀ i ∈ rest, ∃ j ∈ items,
        i.componentId = j.componentId ∧ i.componentType = j.componentType ∧
        i.x = j.x ∧ i.width = j.width ∧ i.height = j.height ∧ j.y ≤ i.y) ∧
    (∀ extra : Nat,
      Push.pushDownH
          (((items.filter (fun i => i.componentId != cid)).length + 1) *
            ((items.filter (fun i => i.componentId != cid)).length + 2) + 1 + extra)
          comp.x comp.width (comp.y + comp.height)
          (comp.y + imax 1 (imin h MAX_COMPONENT_HEIGHT))
          (items.filter (fun i => i.componentId != cid), []) =
        Push.pushDownH
          (((items.filter (fun i => i.componentId != cid)).length + 1) *
            ((items.filter (fun i => i.componentId != cid)).length + 2) + 1)
          comp.x comp.width (comp.y + comp.height)
          (comp.y + imax 1 (imin h MAX_COMPONENT_HEIGHT))
          (items.filter (fun i => i.componentId != cid), [])) := by
  constructor
  · simp only [Push.resizeHeight, hfind]
    split
    · refine ⟨items.filter (fun i => i.componentId != cid), rfl, rfl, ?_⟩
      intro i hi
      exact ⟨i, List.mem_of_mem_filter hi, rfl, rfl, rfl, rfl, rfl, le_refl _⟩
    · split
      · refine ⟨items.filter (fun i => i.componentId != cid), rfl, rfl, ?_⟩
        intro i hi
        exact ⟨i, List.mem_of_mem_filter hi, rfl, rfl, rfl, rfl, rfl, le_refl _⟩
      · rename_i hnofit hgrow
        refine ⟨_, rfl, ?_, ?_⟩
        · rw [Push.pushDownH, if_neg (by omega)]
          exact (pushLoop_framedY _ _ _ _ _ _ _ _ (by omega)).2
        · intro i hi
          rw [Push.pushDownH, if_neg (by omega)] at hi
          obtain ⟨j, hj, e, hy⟩ :=
            (pushLoop_framedY _ _ _ _ _ _ _ _ (by omega)).1 i hi
          exact ⟨j, List.mem_of_mem_filter hj, e.1.symm, e.2.1.symm, e.2.2.1.symm,
            e.2.2.2.1.symm, e.2.2.2.2.symm, hy⟩
  · intro extra
    exact pushDownH_gas (items.filter (fun i => i.componentId != cid)) comp.x comp.width
      (comp.y + comp.height) (comp.y + imax 1 (imin h MAX_COMPONENT_HEIGHT)) extra

/-- C7 witness: the statement at a concrete growth (`a` grown to height 3 in
`exTwoRows`, pushing `b` from row 2 to row 3), with the budget-irrelevance
part instantiated at five extra units. -/
theorem claim_C7_height_never_rejects_witness :
    (∃ rest, Push.resizeHeight exTwoRows "a" 3 =
        rest ++ [{ (⟨"a", "KPI", 0, 0, 2, 1⟩ : GridItem) with
          height := imax 1 (imin 3 MAX_COMPONENT_HEIGHT) }] ∧
      rest.length = (exTwoRows.filter (fun i => i.componentId != "a")).length ∧
      ∀ i ∈ rest, ∃ j ∈ exTwoRows,
        i.componentId = j.componentId ∧ i.componentType = j.componentType ∧
        i.x = j.x ∧ i.width = j.width ∧ i.height = j.height ∧ j.y ≤ i.y) ∧
    Push.pushDownH
        (((exTwoRows.filter (fun i => i.componentId != "a")).length + 1) *
          ((exTwoRows.filter (fun i => i.componentId != "a")).length + 2) + 1 + 5)
        0 2 (0 + 1) (0 + imax 1 (imin 3 MAX_COMPONENT_HEIGHT))
        (exTwoRows.filter (fun i => i.componentId != "a"), []) =
      Push.pushDownH
        (((exTwoRows.filter (fun i => i.componentId != "a")).length + 1) *
          ((exTwoRows.filter (fun i => i.componentId != "a")).length + 2) + 1)
        0 2 (0 + 1) (0 + imax 1 (imin 3 MAX_COMPONENT_HEIGHT))
        (exTwoRows.filter (fun i => i.componentId != "a"), []) :=
  ⟨(claim_C7_height_never_rejects exTwoRows "a" 3 ⟨"a", "KPI", 0, 0, 2, 1⟩ (by decide)).1,
   (claim_C7_height_never_rejects exTwoRows "a" 3 ⟨"a", "KPI", 0, 0, 2, 1⟩ (by decide)).2 5⟩
